import Mathlib

/-!
Verification development for the SUMO → WebSocket telemetry relay
(`frontend/sumo_bridge.py`).

The definitions below are a shallow embedding of the bridge's pure logic:

* the aggregated consensus state (`latest_consensus_data` and its type
  `Consensus`), the link-merge rule of the `topology_update` ingest branch
  (`mergeLinks`, mirroring the Python dict keyed by `(from, to)`),
* the generic consensus-field overwrite branch (`applyGeneric`),
* the datagram classifier (`processPayload` / `processDatagram` /
  `runIngest`; a malformed datagram — any payload that raises during
  parsing or field access before the single mutating assignment — is
  modelled as `none` and leaves the state untouched, exactly as the
  `try/except` in `udp_listener` does),
* the traffic-light actuator `apply_traffic_lights` (returning the command
  string it would send, `none` when it sends nothing),
* the broadcast-rate limiter of `stream_state` (`broadcastStep`,
  `broadcastRun`, wall-clock samples as rationals),
* the signal-state slicing of `stream_state` (`deriveSignalState`; the
  unguarded `tl_state[0]` subscript is modelled as the `none` outcome),
* the snapshot builder (`buildSnapshot`),
* the discovery/attach loop of `main` (`extractPort`, `scanProcs`,
  `attachStep`, `attachRun`; a raised exception that escapes the loop is
  modelled as the `Except.error` outcome).

Python floats that only flow through the state are modelled as rationals.
-/

/-- A link record `{from, to, strength}` as carried in `topology_update`
messages and stored in `latest_consensus_data["links"]`. -/
structure Link where
  from' : String
  to' : String
  strength : ℚ
deriving DecidableEq, Repr

/-- The `(from, to)` key used by the merge dict in `udp_listener`. -/
abbrev LinkKey := String × String

/-- `(l["from"], l["to"])`. -/
def linkKey (l : Link) : LinkKey := (l.from', l.to')

/-- The `metrics` sub-object of the consensus state. -/
structure Metrics where
  decision_latency_ms : ℚ
  topology_stability_score : ℚ
  throughput_gain_pct : ℚ
deriving DecidableEq, Repr

/-- The aggregated consensus view (type of the `latest_consensus_data`
global). -/
structure Consensus where
  phase : String
  proposal_dir : String
  nodes : List String
  links : List Link
  metrics : Metrics
deriving DecidableEq, Repr

/-- Initial value of the module-level `latest_consensus_data` global. -/
def latest_consensus_data : Consensus :=
  { phase := "idle"
    proposal_dir := ""
    nodes := []
    links := []
    metrics := ⟨0, 0, 0⟩ }

/-- `k in dict` for the association-list model of a Python dict. -/
def hasKey (d : List (LinkKey × Link)) (k : LinkKey) : Bool :=
  d.any fun p => decide (p.1 = k)

/-- `dict[k] = v` with Python-dict semantics: replacing an existing key
keeps its position, a fresh key is appended at the end. -/
def dictInsert (d : List (LinkKey × Link)) (k : LinkKey) (v : Link) :
    List (LinkKey × Link) :=
  if hasKey d k then
    d.map fun p => if p.1 = k then (k, v) else p
  else
    d ++ [(k, v)]

/-- Inserting every link of `ls` into the dict `d`, keyed by
`(l["from"], l["to"])` — the comprehension and the `for link in new_links`
loop of the `topology_update` branch both have this shape. -/
def linksDictOf (ls : List Link) (d : List (LinkKey × Link)) :
    List (LinkKey × Link) :=
  ls.foldl (fun d l => dictInsert d (linkKey l) l) d

/-- The `topology_update` merge of `udp_listener` (lines 73-77): build a
dict from the existing links keyed by `(from, to)`, update it with each new
link, and take `list(links_dict.values())`. -/
def mergeLinks (old new : List Link) : List Link :=
  (linksDictOf new (linksDictOf old [])).map Prod.snd

/-- An incoming `consensus` JSON object; `none` marks an absent key.
Extra keys beyond the five modelled here never interact with the modelled
fields, so they are omitted. -/
structure ConsensusMsg where
  phase : Option String := none
  proposal_dir : Option String := none
  nodes : Option (List String) := none
  links : Option (List Link) := none
  metrics : Option Metrics := none
deriving DecidableEq, Repr

/-- A successfully parsed datagram: the optional `type` tag and the
optional nested `consensus` object. -/
structure Payload where
  type' : Option String := none
  consensus : Option ConsensusMsg := none
deriving DecidableEq, Repr

/-- The generic branch of `udp_listener` (lines 78-83): every present field
of the incoming consensus object overwrites the aggregate, except that the
`links` field is only written when the currently aggregated links list is
falsy (empty) — `if key != "links" or not latest_consensus_data.get("links")`. -/
def applyGeneric (st : Consensus) (c : ConsensusMsg) : Consensus :=
  { phase := c.phase.getD st.phase
    proposal_dir := c.proposal_dir.getD st.proposal_dir
    nodes := c.nodes.getD st.nodes
    links :=
      match c.links with
      | none => st.links
      | some v => if st.links.isEmpty then v else st.links
    metrics := c.metrics.getD st.metrics }

/-- One parsed datagram through the classifier of `udp_listener`
(lines 66-87).  The second component records the synchronous actuator
invocation `apply_traffic_lights(phase, proposal_dir)` this message
triggered (`none` when the actuator is not called). -/
def processPayload (st : Consensus) (p : Payload) :
    Consensus × Option (String × String) :=
  if p.type' = some "view_change" then
    (st, none)
  else if p.type' = some "topology_update" ∧ p.consensus.isSome then
    match p.consensus with
    | some c =>
      (match c.links with
       | some new_links => { st with links := mergeLinks st.links new_links }
       | none => st,
       none)
    | none => (st, none)
  else
    match p.consensus with
    | some c =>
      let st' := applyGeneric st c
      (st', some (st'.phase, st'.proposal_dir))
    | none => (st, none)

/-- One received datagram: `none` is a malformed payload, whose processing
raises inside the `try` block before any mutating assignment and is caught
by the `except Exception` handler, leaving the state unchanged. -/
def processDatagram (st : Consensus) (d : Option Payload) :
    Consensus × Option (String × String) :=
  match d with
  | none => (st, none)
  | some p => processPayload st p

/-- The ingest loop over a finite sequence of received datagrams. -/
def runIngest (st : Consensus) (ds : List (Option Payload)) : Consensus :=
  ds.foldl (fun s d => (processDatagram s d).1) st

/-- A `topology_update` datagram carrying exactly a `links` list. -/
def topoMsg (ls : List Link) : Option Payload :=
  some { type' := some "topology_update"
         consensus := some { links := some ls } }

/-- `state_list[i] = "G" for i in range(lo, lo+3)` on the 12-entry list. -/
def setRangeG (l : List String) (lo : Nat) : List String :=
  (List.range' lo 3).foldl (fun s i => s.set i "G") l

/-- The commit-branch signal string of `apply_traffic_lights`
(lines 109-118): `["r"] * 12`, the winning direction's three positions set
to `"G"` (N at 0-2, S at 6-8, E at 3-5, W at 9-11, in the source's elif
order), then `"".join(state_list)`. -/
def commitString (proposal_dir : String) : String :=
  let state_list : List String := List.replicate 12 "r"
  let state_list :=
    if proposal_dir = "N" then setRangeG state_list 0
    else if proposal_dir = "S" then setRangeG state_list 6
    else if proposal_dir = "E" then setRangeG state_list 3
    else if proposal_dir = "W" then setRangeG state_list 9
    else state_list
  String.join state_list

/-- `apply_traffic_lights` (lines 96-120): the signal command string the
actuator sends for a `(phase, proposal_dir)` pair, or `none` when it sends
none.  The surrounding `try/except` only guards the TraCI calls and does
not change which command is issued. -/
def apply_traffic_lights (phase proposal_dir : String) : Option String :=
  if phase = "pre_prepare" ∨ phase = "prepare" then
    some "yyyyyyyyyyyy"
  else if phase = "commit" ∧ proposal_dir ≠ "" then
    some (commitString proposal_dir)
  else
    none

/-- `BROADCAST_INTERVAL = 0.25` in `stream_state`. -/
def BROADCAST_INTERVAL : ℚ := 0.25

/-- One pass of the rate limiter in `stream_state` (lines 132-136): given
`(last_broadcast_time, already emitted snapshot times)` and the wall-clock
sample `t = time.time()` of this step, emit (record `t` and reset
`last_broadcast_time`) exactly when `t - last_broadcast_time ≥ I`. -/
def broadcastStep (I : ℚ) (st : ℚ × List ℚ) (t : ℚ) : ℚ × List ℚ :=
  if I ≤ t - st.1 then (t, st.2 ++ [t]) else (st.1, st.2)

/-- The stepping loop's rate limiter over a finite run: `t0` is the
initial `last_broadcast_time = time.time()`, `ts` the wall-clock samples
taken at successive simulation steps; the second component lists the
emission times. -/
def broadcastRun (I : ℚ) (t0 : ℚ) (ts : List ℚ) : ℚ × List ℚ :=
  ts.foldl (broadcastStep I) (t0, [])

/-- The `traffic_lights` mapping sent to subscribers. -/
structure SignalState where
  N : Char
  E : Char
  S : Char
  W : Char
deriving DecidableEq, Repr

/-- The compass slicing of the raw signal string in `stream_state`
(lines 152-157).  `tl_state[0]` is unguarded in the source and raises
`IndexError` on an empty string — that outcome is the `none` case; the
other three positions carry explicit `len(tl_state) > i` guards defaulting
to `'r'`. -/
def deriveSignalState (tl_state : String) : Option SignalState :=
  match tl_state.data.get? 0 with
  | none => none
  | some c0 =>
    some { N := c0
           E := if tl_state.length > 3 then tl_state.data.getD 3 'r' else 'r'
           S := if tl_state.length > 6 then tl_state.data.getD 6 'r' else 'r'
           W := if tl_state.length > 9 then tl_state.data.getD 9 'r' else 'r' }

/-- One vehicle record of the outbound snapshot. -/
structure VehicleState where
  id : String
  x : ℚ
  y : ℚ
  speed : ℚ
  angle : ℚ
deriving DecidableEq, Repr

/-- The wire-level snapshot built each qualifying tick; `traffic_lights`
is the literal key/value list of the `tls_dict` (empty when no controlled
junction exists). -/
structure OutboundSnapshot where
  step : Nat
  vehicles : List VehicleState
  traffic_lights : List (String × Char)
  consensus : Consensus
deriving DecidableEq, Repr

/-- The four-key dict `{"N": ..., "E": ..., "S": ..., "W": ...}`. -/
def tlsPairs (st : SignalState) : List (String × Char) :=
  [("N", st.N), ("E", st.E), ("S", st.S), ("W", st.W)]

/-- The snapshot construction of one qualifying tick in `stream_state`
(lines 145-166): `tls_dict = {}`;
`if len(traci.trafficlight.getIDList()) > 0` the first junction's raw
state is sliced into the four compass keys; the payload combines the step
counter, vehicle list, the dict, and the aggregated consensus view.
`none` is the tick raising out of the slicing (see `deriveSignalState`). -/
def buildSnapshot (step : Nat) (vehicles : List VehicleState)
    (tl_ids : List String) (tl_state : String) (cons : Consensus) :
    Option OutboundSnapshot :=
  if tl_ids.length > 0 then
    (deriveSignalState tl_state).map fun st =>
      { step := step, vehicles := vehicles
        traffic_lights := tlsPairs st, consensus := cons }
  else
    some { step := step, vehicles := vehicles
           traffic_lights := [], consensus := cons }

/-- A process observed by the discovery scan in `main`: its (already
lowercased-comparable) name and its command line. -/
structure ProcInfo where
  name : String
  cmdline : List String
deriving DecidableEq, Repr

/-- Python's `s.lower()`. -/
def lowerStr (s : String) : String :=
  ⟨s.data.map Char.toLower⟩

/-- Does any suffix of the haystack start with the pattern? -/
def containsSubAux (pat : List Char) : List Char → Bool
  | [] => pat.isEmpty
  | c :: cs => pat.isPrefixOf (c :: cs) || containsSubAux pat cs

/-- Python's substring test `pat in s`. -/
def containsSub (s pat : String) : Bool :=
  containsSubAux pat.data s.data

/-- A decimal digit run folded into a number; any non-digit aborts. -/
def parseDigits (ds : List Char) : Option Nat :=
  if ds = [] then none
  else
    ds.foldl
      (fun acc c =>
        match acc with
        | none => none
        | some n =>
          if c.isDigit then some (n * 10 + (c.toNat - '0'.toNat)) else none)
      (some 0)

/-- Python's `int(s)` on an optionally-signed decimal literal; `none` is
the `ValueError` outcome. -/
def pyInt? (s : String) : Option Int :=
  match s.data with
  | '-' :: ds => (parseDigits ds).map fun n => -(n : Int)
  | ds => (parseDigits ds).map fun n => (n : Int)

/-- The port-argument loop of `main` (lines 218-221): the first
`--remote-port`/`-remote-port` with a following argument wins;
`int(cmd[i+1])` parses it — `.error` is the uncaught `ValueError` when the
argument is not an integer literal, `.ok none` means the loop assigned
nothing. -/
def extractPort : List String → Except Unit (Option Int)
  | a :: b :: rest =>
    if a = "--remote-port" ∨ a = "-remote-port" then
      match pyInt? b with
      | some n => .ok (some n)
      | none => .error ()
    else extractPort (b :: rest)
  | _ => .ok none

/-- Truthiness of the Python `sumo_port` variable (`None` or `0` are
falsy). -/
def truthyInt : Option Int → Bool
  | some n => n != 0
  | none => false

/-- The per-poll process scan of `main` (lines 211-225): for each process
whose lowercased name contains `"sumo"`, run the port-argument loop (which
may raise) keeping the previous `sumo_port` when it assigns nothing, and
break out of the scan as soon as `sumo_port` is truthy. -/
def scanProcs (st : Option Int) : List ProcInfo → Except Unit (Option Int)
  | [] => .ok st
  | proc :: rest =>
    if containsSub (lowerStr proc.name) "sumo" then
      match extractPort proc.cmdline with
      | .error e => .error e
      | .ok (some n) =>
        if truthyInt (some n) then .ok (some n) else scanProcs (some n) rest
      | .ok none =>
        if truthyInt st then .ok st else scanProcs st rest
    else scanProcs st rest

/-- One poll of the discovery loop: the process list seen by this poll,
and whether a `traci.init` handshake attempted this poll would succeed. -/
structure PollInput where
  procs : List ProcInfo
  handshakeOk : Bool
deriving DecidableEq, Repr

/-- One iteration of `while not connected` (lines 209-238): scan, then —
only when `sumo_port` is truthy — attempt the handshake; its failure is
caught and retried.  Returns the new `sumo_port` and whether `connected`
was set. -/
def attachStep (st : Option Int) (inp : PollInput) :
    Except Unit (Option Int × Bool) :=
  match scanProcs st inp.procs with
  | .error e => .error e
  | .ok port =>
    if truthyInt port then .ok (port, inp.handshakeOk) else .ok (port, false)

/-- The discovery loop over a finite sequence of polls: `.ok (some p)` —
attached on port `p` (the loop exits, later polls never happen);
`.ok none` — still waiting after all polls; `.error` — an exception
escaped the loop. -/
def attachRun (st : Option Int) : List PollInput → Except Unit (Option Int)
  | [] => .ok none
  | inp :: rest =>
    match attachStep st inp with
    | .error e => .error e
    | .ok (port, true) => .ok port
    | .ok (port, false) => attachRun port rest

/-- All port arguments in a process list parse as integers, i.e. the scan
of these processes cannot raise a `ValueError`. -/
def ProcsSafe (procs : List ProcInfo) : Prop :=
  ∀ proc ∈ procs, extractPort proc.cmdline ≠ .error ()

/-- Left-biased choice on optional links (`a` wins when present). -/
def orElseO (a b : Option Link) : Option Link :=
  match a with
  | some x => some x
  | none => b

/-- The last (most recent) link in `ls` whose `(from, to)` key is `k`. -/
def lastWith : List Link → LinkKey → Option Link
  | [], _ => none
  | l :: ls, k => orElseO (lastWith ls k) (if linkKey l = k then some l else none)

/-- Well-formedness of the merge dict: every entry is keyed by its link's
`(from, to)` pair, and keys are pairwise distinct. -/
def GoodDict (d : List (LinkKey × Link)) : Prop :=
  (∀ p ∈ d, p.1 = linkKey p.2) ∧ (d.map Prod.fst).Nodup

/-! ### Properties of the link-merge dict -/

theorem orElseO_none_right (a : Option Link) : orElseO a none = a := by
  cases a <;> rfl

theorem orElseO_assoc (a b c : Option Link) :
    orElseO (orElseO a b) c = orElseO a (orElseO b c) := by
  cases a <;> cases b <;> rfl

theorem lastWith_append (a b : List Link) (k : LinkKey) :
    lastWith (a ++ b) k = orElseO (lastWith b k) (lastWith a k) := by
  induction a with
  | nil => simp [lastWith, orElseO_none_right]
  | cons l a ih =>
    show orElseO (lastWith (a ++ b) k) (if linkKey l = k then some l else none)
        = orElseO (lastWith b k)
            (orElseO (lastWith a k) (if linkKey l = k then some l else none))
    rw [ih, orElseO_assoc]

theorem lastWith_eq_none {ls : List Link} {k : LinkKey}
    (h : ∀ l ∈ ls, linkKey l ≠ k) : lastWith ls k = none := by
  induction ls with
  | nil => rfl
  | cons l ls ih =>
    have hl : linkKey l ≠ k := h l (by simp)
    have hrest : lastWith ls k = none := ih fun x hx => h x (by simp [hx])
    simp [lastWith, hrest, hl, orElseO]

theorem lastWith_map_snd_none {d : List (LinkKey × Link)} {k : LinkKey}
    (h1 : ∀ p ∈ d, p.1 = linkKey p.2) (h2 : ∀ p ∈ d, p.1 ≠ k) :
    lastWith (d.map Prod.snd) k = none := by
  refine lastWith_eq_none ?_
  intro l hl
  rcases List.mem_map.1 hl with ⟨p, hp, rfl⟩
  rw [← h1 p hp]
  exact h2 p hp

theorem hasKey_eq_false_iff (d : List (LinkKey × Link)) (k : LinkKey) :
    hasKey d k = false ↔ ∀ p ∈ d, p.1 ≠ k := by
  simp [hasKey, List.any_eq_true]

theorem dictInsert_good {d : List (LinkKey × Link)} (v : Link)
    (h : GoodDict d) : GoodDict (dictInsert d (linkKey v) v) := by
  obtain ⟨h1, h2⟩ := h
  unfold dictInsert
  by_cases hk : hasKey d (linkKey v) = true
  · rw [if_pos hk]
    constructor
    · intro p hp
      rcases List.mem_map.1 hp with ⟨q, hq, rfl⟩
      by_cases hq1 : q.1 = linkKey v
      · simp only [if_pos hq1]
      · simp only [if_neg hq1]
        exact h1 q hq
    · have hmap :
          (d.map fun p => if p.1 = linkKey v then (linkKey v, v) else p).map
              Prod.fst = d.map Prod.fst := by
        rw [List.map_map]
        apply List.map_congr_left
        intro p _
        by_cases hp1 : p.1 = linkKey v
        · simp [hp1]
        · simp [hp1]
      rw [hmap]
      exact h2
  · rw [if_neg hk]
    have hk' : ∀ p ∈ d, p.1 ≠ linkKey v :=
      (hasKey_eq_false_iff d (linkKey v)).1 (by simpa using hk)
    constructor
    · intro p hp
      rcases List.mem_append.1 hp with hp | hp
      · exact h1 p hp
      · simp at hp
        simp [hp]
    · rw [List.map_append]
      simp only [List.map_cons, List.map_nil]
      rw [List.nodup_append]
      refine ⟨h2, List.nodup_singleton _, ?_⟩
      intro a ha hb
      simp at hb
      rcases List.mem_map.1 ha with ⟨p, hp, rfl⟩
      exact hk' p hp hb

theorem lastWith_replace (v : Link) :
    ∀ (d : List (LinkKey × Link)), (∀ p ∈ d, p.1 = linkKey p.2) →
    (d.map Prod.fst).Nodup → ∀ k,
    lastWith (d.map fun p => if p.1 = linkKey v then v else p.2) k
      = if linkKey v = k ∧ hasKey d (linkKey v) = true then some v
        else lastWith (d.map Prod.snd) k := by
  intro d
  induction d with
  | nil =>
    intro _ _ k
    simp [lastWith, hasKey]
  | cons p d ih =>
    intro h1 h2 k
    have h1d : ∀ q ∈ d, q.1 = linkKey q.2 := fun q hq => h1 q (by simp [hq])
    have h1p : p.1 = linkKey p.2 := h1 p (by simp)
    have h2d : (d.map Prod.fst).Nodup := (List.nodup_cons.1 (by simpa using h2)).2
    have h2p : p.1 ∉ d.map Prod.fst := (List.nodup_cons.1 (by simpa using h2)).1
    by_cases hp : p.1 = linkKey v
    · -- the head entry is the one being replaced
      have hdSnd : (d.map fun q => if q.1 = linkKey v then v else q.2)
          = d.map Prod.snd := by
        apply List.map_congr_left
        intro q hq
        have : q.1 ≠ linkKey v := by
          intro hcontra
          exact h2p (hp ▸ hcontra ▸ List.mem_map_of_mem Prod.fst hq)
        simp [this]
      have hHas : hasKey (p :: d) (linkKey v) = true := by
        simp [hasKey, hp]
      simp only [List.map_cons, if_pos hp, lastWith, hdSnd, hHas, and_true]
      by_cases hk : linkKey v = k
      · have hnone : lastWith (d.map Prod.snd) k = none := by
          apply lastWith_map_snd_none h1d
          intro q hq hcontra
          apply h2p
          rw [hp, hk, ← hcontra]
          exact List.mem_map_of_mem Prod.fst hq
        simp [hk, hnone, orElseO]
      · have hhead : linkKey p.2 ≠ k := by
          rw [← h1p, hp]
          exact hk
        simp [hk, hhead, orElseO_none_right]
    · -- the head entry is untouched
      have hf : (if p.1 = linkKey v then v else p.2) = p.2 := if_neg hp
      have hHas : hasKey (p :: d) (linkKey v) = hasKey d (linkKey v) := by
        simp [hasKey, hp]
      simp only [List.map_cons, hf, lastWith, hHas, ih h1d h2d k]
      by_cases hc : linkKey v = k ∧ hasKey d (linkKey v) = true
      · rw [if_pos hc, if_pos hc]
        rfl
      · rw [if_neg hc, if_neg hc]

theorem lastWith_insert {d : List (LinkKey × Link)} (v : Link)
    (h : GoodDict d) (k : LinkKey) :
    lastWith ((dictInsert d (linkKey v) v).map Prod.snd) k
      = if linkKey v = k then some v else lastWith (d.map Prod.snd) k := by
  obtain ⟨h1, h2⟩ := h
  unfold dictInsert
  by_cases hk : hasKey d (linkKey v) = true
  · rw [if_pos hk]
    have hcomp :
        ((d.map fun p => if p.1 = linkKey v then (linkKey v, v) else p).map
            Prod.snd)
          = d.map fun p => if p.1 = linkKey v then v else p.2 := by
      rw [List.map_map]
      apply List.map_congr_left
      intro p _
      by_cases hp : p.1 = linkKey v
      · simp [hp]
      · simp [hp]
    rw [hcomp, lastWith_replace v d h1 h2 k, hk]
    simp
  · rw [if_neg hk]
    have hk' : ∀ p ∈ d, p.1 ≠ linkKey v :=
      (hasKey_eq_false_iff d (linkKey v)).1 (by simpa using hk)
    rw [List.map_append, lastWith_append]
    by_cases hvk : linkKey v = k
    · have hsingle : lastWith ([(linkKey v, v)].map Prod.snd) k = some v := by
        simp [lastWith, hvk, orElseO]
      rw [hsingle]
      simp [hvk, orElseO]
    · have hsingle : lastWith ([(linkKey v, v)].map Prod.snd) k = none := by
        simp [lastWith, hvk, orElseO]
      rw [hsingle]
      simp [hvk, orElseO]

theorem goodDict_fold (ls : List Link) :
    ∀ d, GoodDict d → GoodDict (linksDictOf ls d) := by
  induction ls with
  | nil => intro d h; exact h
  | cons l ls ih =>
    intro d h
    exact ih _ (dictInsert_good l h)

theorem goodDict_nil : GoodDict [] := by
  constructor
  · intro p hp
    simp at hp
  · simp

theorem lastWith_fold (ls : List Link) :
    ∀ d, GoodDict d → ∀ k,
    lastWith ((linksDictOf ls d).map Prod.snd) k
      = orElseO (lastWith ls k) (lastWith (d.map Prod.snd) k) := by
  induction ls with
  | nil =>
    intro d h k
    simp [linksDictOf, lastWith, orElseO]
  | cons l ls ih =>
    intro d h k
    have step : linksDictOf (l :: ls) d
        = linksDictOf ls (dictInsert d (linkKey l) l) := rfl
    rw [step, ih _ (dictInsert_good l h) k, lastWith_insert l h k]
    show orElseO (lastWith ls k) (if linkKey l = k then some l else lastWith (d.map Prod.snd) k)
        = orElseO (orElseO (lastWith ls k) (if linkKey l = k then some l else none))
            (lastWith (d.map Prod.snd) k)
    rw [orElseO_assoc]
    by_cases hlk : linkKey l = k
    · simp [hlk, orElseO]
    · simp [hlk, orElseO]

theorem mergeLinks_lastWith (old new : List Link) (k : LinkKey) :
    lastWith (mergeLinks old new) k
      = orElseO (lastWith new k) (lastWith old k) := by
  unfold mergeLinks
  rw [lastWith_fold new _ (goodDict_fold old [] goodDict_nil) k,
    lastWith_fold old [] goodDict_nil k]
  simp [lastWith, orElseO_none_right]

theorem mergeLinks_keys_nodup (old new : List Link) :
    ((mergeLinks old new).map linkKey).Nodup := by
  have hgood : GoodDict (linksDictOf new (linksDictOf old [])) :=
    goodDict_fold new _ (goodDict_fold old [] goodDict_nil)
  obtain ⟨h1, h2⟩ := hgood
  unfold mergeLinks
  rw [List.map_map]
  have : (linksDictOf new (linksDictOf old [])).map (linkKey ∘ Prod.snd)
      = (linksDictOf new (linksDictOf old [])).map Prod.fst := by
    apply List.map_congr_left
    intro p hp
    exact (h1 p hp).symm
  rw [this]
  exact h2

theorem linksDictOf_eq (ls : List Link) :
    ∀ d, (∀ p ∈ d, p.1 = linkKey p.2) →
    ((d.map Prod.fst) ++ ls.map linkKey).Nodup →
    linksDictOf ls d = d ++ ls.map fun l => (linkKey l, l) := by
  induction ls with
  | nil =>
    intro d _ _
    simp [linksDictOf]
  | cons l ls ih =>
    intro d h1 h2
    have hfresh : linkKey l ∉ d.map Prod.fst := by
      rw [List.nodup_append] at h2
      intro hmem
      exact h2.2.2 hmem (by simp)
    have hkey : hasKey d (linkKey l) = false := by
      rw [Bool.eq_false_iff]
      intro htrue
      simp only [hasKey, List.any_eq_true, decide_eq_true_eq] at htrue
      rcases htrue with ⟨p, hp, hpk⟩
      exact hfresh (hpk ▸ List.mem_map_of_mem Prod.fst hp)
    have step : linksDictOf (l :: ls) d
        = linksDictOf ls (dictInsert d (linkKey l) l) := rfl
    have hins : dictInsert d (linkKey l) l = d ++ [(linkKey l, l)] := by
      unfold dictInsert
      rw [hkey]
      simp
    rw [step, hins]
    have h1' : ∀ p ∈ d ++ [(linkKey l, l)], p.1 = linkKey p.2 := by
      intro p hp
      rcases List.mem_append.1 hp with hp | hp
      · exact h1 p hp
      · simp at hp
        simp [hp]
    have h2' : (((d ++ [(linkKey l, l)]).map Prod.fst) ++ ls.map linkKey).Nodup := by
      rw [List.map_append]
      simp only [List.map_cons, List.map_nil]
      have := h2
      simp only [List.map_cons] at this
      rw [List.append_assoc]
      simpa using this
    rw [ih _ h1' h2']
    simp

theorem mergeLinks_nil_right {ls : List Link}
    (h : (ls.map linkKey).Nodup) : mergeLinks ls [] = ls := by
  unfold mergeLinks
  have : linksDictOf [] (linksDictOf ls []) = linksDictOf ls [] := rfl
  rw [this, linksDictOf_eq ls [] (by intro p hp; simp at hp) (by simpa using h)]
  simp only [List.nil_append, List.map_map]
  have hid : (Prod.snd ∘ fun l : Link => (linkKey l, l)) = id := rfl
  rw [hid, List.map_id]

theorem foldl_lastWith (msgs : List (List Link)) :
    ∀ (init : List Link) (k : LinkKey),
    lastWith (msgs.foldl mergeLinks init) k = lastWith (init ++ msgs.flatten) k := by
  induction msgs with
  | nil =>
    intro init k
    simp
  | cons m msgs ih =>
    intro init k
    have step : (m :: msgs).foldl mergeLinks init
        = msgs.foldl mergeLinks (mergeLinks init m) := rfl
    rw [step, ih (mergeLinks init m) k, lastWith_append, mergeLinks_lastWith]
    have hjoin : (m :: msgs).flatten = m ++ msgs.flatten := by simp
    rw [hjoin, lastWith_append, lastWith_append, orElseO_assoc]

theorem foldl_keys_nodup (msgs : List (List Link)) :
    ∀ (init : List Link), (init.map linkKey).Nodup →
    ((msgs.foldl mergeLinks init).map linkKey).Nodup := by
  induction msgs with
  | nil => intro init h; exact h
  | cons m msgs ih =>
    intro init _
    exact ih (mergeLinks init m) (mergeLinks_keys_nodup init m)

theorem runIngest_topo (msgs : List (List Link)) :
    ∀ st : Consensus, runIngest st (msgs.map topoMsg)
      = { st with links := msgs.foldl mergeLinks st.links } := by
  induction msgs with
  | nil =>
    intro st
    show st = { st with links := st.links }
    rfl
  | cons m msgs ih =>
    intro st
    have step : runIngest st ((m :: msgs).map topoMsg)
        = runIngest { st with links := mergeLinks st.links m } (msgs.map topoMsg) := rfl
    rw [step, ih]
    rfl

/-! ### Reduction lemmas for the datagram classifier -/

theorem processPayload_topo (st : Consensus) (c : ConsensusMsg) :
    processPayload st { type' := some "topology_update", consensus := some c }
      = ((match c.links with
          | some new_links => { st with links := mergeLinks st.links new_links }
          | none => st),
         none) := rfl

theorem processPayload_generic (st : Consensus) (c : ConsensusMsg)
    (ty : Option String) (h1 : ty ≠ some "view_change")
    (h2 : ty ≠ some "topology_update") :
    processPayload st { type' := ty, consensus := some c }
      = (applyGeneric st c,
         some ((applyGeneric st c).phase, (applyGeneric st c).proposal_dir)) := by
  unfold processPayload
  rw [if_neg h1, if_neg (fun hand => h2 hand.1)]

theorem applyGeneric_links_of_ne {st : Consensus} (c : ConsensusMsg)
    (hne : st.links ≠ []) : (applyGeneric st c).links = st.links := by
  have hfalse : st.links.isEmpty = false := by
    cases h : st.links with
    | nil => exact absurd h hne
    | cons a as => rfl
  unfold applyGeneric
  cases c.links with
  | none => rfl
  | some v => simp [hfalse]

/-! ### Claims -/

/-- Claim C1: for every sequence of `topology_update` messages merged by
the ingest path, the aggregated links set contains at most one entry per
`(from, to)` key (the key list is duplicate-free), and the entry stored
for each key is the most recently merged link with that key (the
last-matching link of the aggregate coincides with the last-matching link
of the concatenated message sequence); in particular merging `(A,B,0.2)`
then `(A,B,0.9)` into the empty initial aggregate yields exactly
`{(A,B,0.9)}`. -/
theorem claim_C1 (msgs : List (List Link)) (k : LinkKey) :
    ((runIngest latest_consensus_data (msgs.map topoMsg)).links.map linkKey).Nodup
    ∧ lastWith (runIngest latest_consensus_data (msgs.map topoMsg)).links k
        = lastWith msgs.flatten k
    ∧ (runIngest latest_consensus_data
        [topoMsg [⟨"A", "B", 0.2⟩], topoMsg [⟨"A", "B", 0.9⟩]]).links
        = [⟨"A", "B", 0.9⟩] := by
  have hrun : (runIngest latest_consensus_data (msgs.map topoMsg)).links
      = msgs.foldl mergeLinks [] := by
    rw [runIngest_topo]
    rfl
  refine ⟨?_, ?_, by rfl⟩
  · rw [hrun]
    exact foldl_keys_nodup msgs [] (by simp)
  · rw [hrun, foldl_lastWith]
    rfl

/-- Claim C2: an incoming update carrying an empty link list — through the
`topology_update` path or through the generic consensus path — leaves a
non-empty aggregated links list unchanged. -/
theorem claim_C2 (st : Consensus) (c : ConsensusMsg) (ty : Option String)
    (hne : st.links ≠ []) (hnd : (st.links.map linkKey).Nodup)
    (hempty : c.links = some []) :
    (processPayload st
        { type' := some "topology_update", consensus := some c }).1.links
      = st.links
    ∧ (ty ≠ some "view_change" → ty ≠ some "topology_update" →
        (processPayload st { type' := ty, consensus := some c }).1.links
          = st.links) := by
  constructor
  · rw [processPayload_topo, hempty]
    exact mergeLinks_nil_right hnd
  · intro h1 h2
    rw [processPayload_generic st c ty h1 h2]
    exact applyGeneric_links_of_ne c hne

/-- Witness for C2 at a concrete non-empty aggregate: the topology path
and the generic path both preserve the single stored link when the
incoming link list is empty. -/
theorem claim_C2_witness :
    ((⟨"idle", "", [], [⟨"A", "B", 1⟩], ⟨0, 0, 0⟩⟩ : Consensus).links ≠ [])
    ∧ (processPayload ⟨"idle", "", [], [⟨"A", "B", 1⟩], ⟨0, 0, 0⟩⟩
        { type' := some "topology_update",
          consensus := some { links := some [] } }).1.links
      = [⟨"A", "B", 1⟩]
    ∧ (processPayload ⟨"idle", "", [], [⟨"A", "B", 1⟩], ⟨0, 0, 0⟩⟩
        { type' := some "status",
          consensus := some { links := some [] } }).1.links
      = [⟨"A", "B", 1⟩] := by
  refine ⟨by decide, ?_, ?_⟩
  · exact (claim_C2 ⟨"idle", "", [], [⟨"A", "B", 1⟩], ⟨0, 0, 0⟩⟩
      { links := some [] } (some "status") (by decide) (by decide) rfl).1
  · exact (claim_C2 ⟨"idle", "", [], [⟨"A", "B", 1⟩], ⟨0, 0, 0⟩⟩
      { links := some [] } (some "status") (by decide) (by decide) rfl).2
      (by decide) (by decide)

/-- Claim C3: the actuator's policy table — negotiating phases blink all
twelve positions yellow; `commit` with a data-model direction issues the
12-character string with the winning block at "go" (`G`) and the nine
other positions at "stop" (`r`); `commit` with an empty direction and any
unrecognized phase issue no command. -/
theorem claim_C3 (phase proposal_dir : String) :
    ((phase = "pre_prepare" ∨ phase = "prepare") →
      apply_traffic_lights phase proposal_dir = some "yyyyyyyyyyyy")
    ∧ (phase = "commit" → proposal_dir = "N" →
        apply_traffic_lights phase proposal_dir = some "GGGrrrrrrrrr")
    ∧ (phase = "commit" → proposal_dir = "E" →
        apply_traffic_lights phase proposal_dir = some "rrrGGGrrrrrr")
    ∧ (phase = "commit" → proposal_dir = "S" →
        apply_traffic_lights phase proposal_dir = some "rrrrrrGGGrrr")
    ∧ (phase = "commit" → proposal_dir = "W" →
        apply_traffic_lights phase proposal_dir = some "rrrrrrrrrGGG")
    ∧ (phase = "commit" → proposal_dir = "" →
        apply_traffic_lights phase proposal_dir = none)
    ∧ (phase ≠ "pre_prepare" → phase ≠ "prepare" → phase ≠ "commit" →
        apply_traffic_lights phase proposal_dir = none) := by
  refine ⟨?_, ?_, ?_, ?_, ?_, ?_, ?_⟩
  · intro h
    unfold apply_traffic_lights
    rw [if_pos h]
  · intro h1 h2; subst h1; subst h2; rfl
  · intro h1 h2; subst h1; subst h2; rfl
  · intro h1 h2; subst h1; subst h2; rfl
  · intro h1 h2; subst h1; subst h2; rfl
  · intro h1 h2; subst h1; subst h2; rfl
  · intro h1 h2 h3
    unfold apply_traffic_lights
    rw [if_neg (not_or.2 ⟨h1, h2⟩), if_neg (fun hand => h3 hand.1)]

/-- Witness for C3 at the spec's scenario `phase=commit, proposal_dir=N`:
the three N positions show go and the other nine show stop. -/
theorem claim_C3_witness :
    apply_traffic_lights "commit" "N" = some "GGGrrrrrrrrr" :=
  (claim_C3 "commit" "N").2.1 rfl rfl

/-- Counterexample for C4 as stated: a generic (non-`topology_update`,
non-`view_change`) message whose consensus object carries a non-empty
`links` entry does change the aggregated links field when the current
aggregate is empty — the initial state's empty link list is overwritten. -/
theorem claim_C4_cex :
    latest_consensus_data.links = []
    ∧ (processPayload latest_consensus_data
        { type' := some "status",
          consensus := some { links := some [⟨"A", "B", 1⟩] } }).1.links
      = [⟨"A", "B", 1⟩]
    ∧ ([⟨"A", "B", 1⟩] : List Link) ≠ [] := by
  exact ⟨rfl, rfl, by decide⟩

/-- Claim C4 (amended): a generic message leaves the aggregated links
field unchanged whenever the current aggregated links list is non-empty;
when the current aggregated links list is empty, a `links` entry in the
consensus object overwrites it. -/
theorem claim_C4 (st : Consensus) (c : ConsensusMsg) (ty : Option String)
    (h1 : ty ≠ some "view_change") (h2 : ty ≠ some "topology_update") :
    (st.links ≠ [] →
      (processPayload st { type' := ty, consensus := some c }).1.links
        = st.links)
    ∧ (∀ ls, st.links = [] → c.links = some ls →
        (processPayload st { type' := ty, consensus := some c }).1.links
          = ls) := by
  rw [processPayload_generic st c ty h1 h2]
  constructor
  · intro hne
    exact applyGeneric_links_of_ne c hne
  · intro ls hnil hcl
    show (applyGeneric st c).links = ls
    unfold applyGeneric
    rw [hcl]
    have hempty : st.links.isEmpty = true := by rw [hnil]; rfl
    simp [hempty]

/-- Witness for C4 (amended): with a non-empty aggregate the links field
survives a generic message; with the empty initial aggregate a carried
links list is installed. -/
theorem claim_C4_witness :
    (processPayload ⟨"idle", "", [], [⟨"A", "B", 1⟩], ⟨0, 0, 0⟩⟩
        { type' := some "status",
          consensus := some { links := some [⟨"C", "D", 1⟩] } }).1.links
      = [⟨"A", "B", 1⟩]
    ∧ (processPayload latest_consensus_data
        { type' := some "status",
          consensus := some { links := some [⟨"C", "D", 1⟩] } }).1.links
      = [⟨"C", "D", 1⟩] := by
  constructor
  · exact (claim_C4 ⟨"idle", "", [], [⟨"A", "B", 1⟩], ⟨0, 0, 0⟩⟩
      { links := some [⟨"C", "D", 1⟩] } (some "status")
      (by decide) (by decide)).1 (by decide)
  · exact (claim_C4 latest_consensus_data
      { links := some [⟨"C", "D", 1⟩] } (some "status")
      (by decide) (by decide)).2 [⟨"C", "D", 1⟩] rfl rfl

/-- Counterexample for C5 as stated: a `topology_update` message mutates
the aggregated consensus state (its empty link set becomes non-empty) yet
triggers no actuator invocation — the synchronous
`apply_traffic_lights` call lives only in the generic branch. -/
theorem claim_C5_cex :
    (processPayload latest_consensus_data
        { type' := some "topology_update",
          consensus := some { links := some [⟨"A", "B", 1⟩] } }).1.links
      = [⟨"A", "B", 1⟩]
    ∧ latest_consensus_data.links = []
    ∧ ([⟨"A", "B", 1⟩] : List Link) ≠ []
    ∧ (processPayload latest_consensus_data
        { type' := some "topology_update",
          consensus := some { links := some [⟨"A", "B", 1⟩] } }).2
      = none :=
  ⟨rfl, rfl, by decide, rfl⟩

/-- Claim C5 (amended): after every consensus-state mutation performed by
the generic ingest branch, the actuator is invoked synchronously with the
new phase and proposal direction; `topology_update` messages (whose only
mutation is the link merge) never trigger the actuator. -/
theorem claim_C5 (st : Consensus) (c : ConsensusMsg) (ty : Option String)
    (p : Payload) (h1 : ty ≠ some "view_change")
    (h2 : ty ≠ some "topology_update") :
    (processPayload st { type' := ty, consensus := some c }).2
      = some ((processPayload st { type' := ty, consensus := some c }).1.phase,
          (processPayload st { type' := ty, consensus := some c }).1.proposal_dir)
    ∧ (p.type' = some "topology_update" → (processPayload st p).2 = none) := by
  constructor
  · rw [processPayload_generic st c ty h1 h2]
  · intro hty
    obtain ⟨pty, pcons⟩ := p
    simp only at hty
    subst hty
    cases pcons with
    | none => rfl
    | some c' => rfl

/-- Witness for C5 (amended): a generic `commit/N` message triggers the
actuator with the new phase and direction; a topology message carrying a
link triggers none. -/
theorem claim_C5_witness :
    (processPayload latest_consensus_data
        { type' := some "status",
          consensus := some { phase := some "commit",
                              proposal_dir := some "N" } }).2
      = some ("commit", "N")
    ∧ (processPayload latest_consensus_data
        { type' := some "topology_update",
          consensus := some { links := some [⟨"A", "B", 1⟩] } }).2
      = none := by
  constructor
  · exact (claim_C5 latest_consensus_data
      { phase := some "commit", proposal_dir := some "N" } (some "status")
      { type' := some "topology_update",
        consensus := some { links := some [⟨"A", "B", 1⟩] } }
      (by decide) (by decide)).1
  · exact (claim_C5 latest_consensus_data
      { phase := some "commit", proposal_dir := some "N" } (some "status")
      { type' := some "topology_update",
        consensus := some { links := some [⟨"A", "B", 1⟩] } }
      (by decide) (by decide)).2 rfl

/-- Counterexample for C6 as stated: on the empty raw signal string the
derivation fails (the unguarded `tl_state[0]` raises `IndexError`) instead
of defaulting every compass key to the safe red value. -/
theorem claim_C6_cex : deriveSignalState "" = none := rfl

/-- Claim C6 (amended): for every non-empty raw signal-state string the
derivation succeeds, mapping N to the character at position 0 and E, S, W
to the characters at positions 3, 6, 9 with positions missing because the
string is too short defaulting to the safe red value `'r'`; only the
empty string makes the derivation fail. -/
theorem claim_C6 (s : String) (h : s ≠ "") :
    deriveSignalState s
      = some { N := s.data.getD 0 'r', E := s.data.getD 3 'r',
               S := s.data.getD 6 'r', W := s.data.getD 9 'r' } := by
  obtain ⟨data⟩ := s
  cases data with
  | nil => exact absurd rfl h
  | cons c cs =>
    have hE : (if (String.mk (c :: cs)).length > 3
        then (c :: cs).getD 3 'r' else 'r') = (c :: cs).getD 3 'r' := by
      by_cases h3 : (String.mk (c :: cs)).length > 3
      · rw [if_pos h3]
      · rw [if_neg h3, List.getD_eq_default]
        exact Nat.le_of_not_lt h3
    have hS : (if (String.mk (c :: cs)).length > 6
        then (c :: cs).getD 6 'r' else 'r') = (c :: cs).getD 6 'r' := by
      by_cases h6 : (String.mk (c :: cs)).length > 6
      · rw [if_pos h6]
      · rw [if_neg h6, List.getD_eq_default]
        exact Nat.le_of_not_lt h6
    have hW : (if (String.mk (c :: cs)).length > 9
        then (c :: cs).getD 9 'r' else 'r') = (c :: cs).getD 9 'r' := by
      by_cases h9 : (String.mk (c :: cs)).length > 9
      · rw [if_pos h9]
      · rw [if_neg h9, List.getD_eq_default]
        exact Nat.le_of_not_lt h9
    show some
        ({ N := c,
           E := if (String.mk (c :: cs)).length > 3
                then (c :: cs).getD 3 'r' else 'r',
           S := if (String.mk (c :: cs)).length > 6
                then (c :: cs).getD 6 'r' else 'r',
           W := if (String.mk (c :: cs)).length > 9
                then (c :: cs).getD 9 'r' else 'r' } : SignalState)
      = some ({ N := (c :: cs).getD 0 'r', E := (c :: cs).getD 3 'r',
                S := (c :: cs).getD 6 'r', W := (c :: cs).getD 9 'r' }
              : SignalState)
    rw [hE, hS, hW]
    rfl

/-- Witness for C6 (amended) on a 4-character raw string: position 0 feeds
N, position 3 feeds E, and the missing positions 6 and 9 default to red. -/
theorem claim_C6_witness :
    deriveSignalState "GGry" = some ⟨'G', 'y', 'r', 'r'⟩ :=
  claim_C6 "GGry" (by decide)

/-- Claim C7: a malformed datagram is dropped without modifying the
aggregated state, and a valid–malformed–valid sequence applies both valid
datagrams exactly as if the malformed one were absent. -/
theorem claim_C7 (st : Consensus) (p1 p2 : Payload) :
    processDatagram st none = (st, none)
    ∧ runIngest st [some p1, none, some p2]
        = runIngest st [some p1, some p2] :=
  ⟨rfl, rfl⟩

/-- Claim C10: when the simulation reports zero controlled traffic lights
at an emission tick, the snapshot is still built and emitted with an empty
`traffic_lights` mapping (no compass keys, no red defaults), while the
vehicle list, step counter and consensus fields are populated as usual. -/
theorem claim_C10 (step : Nat) (vehicles : List VehicleState)
    (tl_state : String) (cons : Consensus) :
    buildSnapshot step vehicles [] tl_state cons
      = some { step := step, vehicles := vehicles,
               traffic_lights := [], consensus := cons } := by
  rfl

/-! ### The broadcast-rate limiter -/

theorem broadcast_invariant (I : ℚ) (ts : List ℚ) :
    ∀ (last : ℚ) (sent : List ℚ),
    List.Chain' (fun a b => I ≤ b - a) sent →
    (sent = [] ∨ sent.getLast? = some last) →
    List.Chain' (fun a b => I ≤ b - a)
      (ts.foldl (broadcastStep I) (last, sent)).2
    ∧ ((ts.foldl (broadcastStep I) (last, sent)).2 = []
        ∨ (ts.foldl (broadcastStep I) (last, sent)).2.getLast?
            = some (ts.foldl (broadcastStep I) (last, sent)).1) := by
  induction ts with
  | nil =>
    intro last sent h1 h2
    exact ⟨h1, h2⟩
  | cons t ts ih =>
    intro last sent h1 h2
    have step : (t :: ts).foldl (broadcastStep I) (last, sent)
        = ts.foldl (broadcastStep I) (broadcastStep I (last, sent) t) := rfl
    rw [step]
    by_cases hcond : I ≤ t - last
    · have hstep : broadcastStep I (last, sent) t = (t, sent ++ [t]) := by
        unfold broadcastStep
        rw [if_pos hcond]
      rw [hstep]
      apply ih
      · rw [List.chain'_append]
        refine ⟨h1, List.chain'_singleton t, ?_⟩
        intro x hx y hy
        simp only [List.head?_cons, Option.mem_def, Option.some.injEq] at hy
        subst hy
        rcases h2 with h2 | h2
        · subst h2
          simp at hx
        · rw [h2] at hx
          simp only [Option.mem_def, Option.some.injEq] at hx
          subst hx
          exact hcond
      · right
        simp
    · have hstep : broadcastStep I (last, sent) t = (last, sent) := by
        unfold broadcastStep
        rw [if_neg hcond]
      rw [hstep]
      exact ih last sent h1 h2

/-- Claim C8: the broadcast interval is 0.25 s; along every run of the
stepping loop, any two consecutively emitted snapshot times differ by at
least the configured interval `I`, whatever the step cadence; and a step
at which less than `I` has elapsed since the last emission sends nothing
and leaves the limiter state unchanged. -/
theorem claim_C8 :
    BROADCAST_INTERVAL = 1/4
    ∧ (∀ (I t0 : ℚ) (ts : List ℚ),
        List.Chain' (fun a b => I ≤ b - a) (broadcastRun I t0 ts).2)
    ∧ (∀ (I last t : ℚ) (sent : List ℚ), t - last < I →
        broadcastStep I (last, sent) t = (last, sent)) := by
  refine ⟨by norm_num [BROADCAST_INTERVAL], ?_, ?_⟩
  · intro I t0 ts
    exact (broadcast_invariant I ts t0 [] List.chain'_nil (Or.inl rfl)).1
  · intro I last t sent h
    unfold broadcastStep
    rw [if_neg (not_le.2 h)]

/-- Witness for C8's non-qualifying-step law at a concrete step: an eighth
of a second after the last emission, with a quarter-second interval,
nothing is sent. -/
theorem claim_C8_witness :
    ((1 : ℚ)/8 - 0 < 1/4)
    ∧ broadcastStep (1/4) (0, ([] : List ℚ)) (1/8) = (0, []) :=
  ⟨by norm_num, claim_C8.2.2 (1/4) 0 (1/8) [] (by norm_num)⟩

/-! ### The discovery/attach loop -/

theorem scanProcs_ok (procs : List ProcInfo) :
    ∀ st, ProcsSafe procs → scanProcs st procs ≠ .error () := by
  induction procs with
  | nil =>
    intro st _ h
    simp [scanProcs] at h
  | cons proc rest ih =>
    intro st hsafe
    have hsafe' : ProcsSafe rest := fun q hq => hsafe q (by simp [hq])
    have hproc : extractPort proc.cmdline ≠ .error () := hsafe proc (by simp)
    unfold scanProcs
    by_cases hname : containsSub (lowerStr proc.name) "sumo" = true
    · rw [if_pos hname]
      cases hext : extractPort proc.cmdline with
      | error e =>
        cases e
        exact absurd hext hproc
      | ok r =>
        cases r with
        | some n =>
          show (if truthyInt (some n) = true then Except.ok (some n)
              else scanProcs (some n) rest) ≠ Except.error ()
          by_cases htr : truthyInt (some n) = true
          · rw [if_pos htr]
            intro h
            cases h
          · rw [if_neg htr]
            exact ih (some n) hsafe'
        | none =>
          show (if truthyInt st = true then Except.ok st
              else scanProcs st rest) ≠ Except.error ()
          by_cases htr : truthyInt st = true
          · rw [if_pos htr]
            intro h
            cases h
          · rw [if_neg htr]
            exact ih st hsafe'
    · rw [if_neg hname]
      exact ih st hsafe'

theorem attachRun_cons (st : Option Int) (inp : PollInput)
    (rest : List PollInput) (port : Option Int)
    (hscan : scanProcs st inp.procs = .ok port) :
    attachRun st (inp :: rest)
      = if truthyInt port && inp.handshakeOk then .ok port
        else attachRun port rest := by
  have hstep : attachStep st inp
      = .ok (port, if truthyInt port then inp.handshakeOk else false) := by
    unfold attachStep
    rw [hscan]
    show (if truthyInt port = true then Except.ok (port, inp.handshakeOk)
        else Except.ok (port, false))
      = Except.ok (port, if truthyInt port then inp.handshakeOk else false)
    by_cases htr : truthyInt port = true
    · rw [if_pos htr, if_pos htr]
    · rw [if_neg htr, if_neg htr]
  show (match attachStep st inp with
    | .error e => .error e
    | .ok (port, true) => .ok port
    | .ok (port, false) => attachRun port rest)
      = if truthyInt port && inp.handshakeOk then .ok port
        else attachRun port rest
  rw [hstep]
  cases hok : inp.handshakeOk <;> by_cases htr : truthyInt port = true <;>
    simp [htr, hok]

theorem attachRun_ok (inputs : List PollInput) :
    ∀ st, (∀ inp ∈ inputs, ProcsSafe inp.procs) →
    attachRun st inputs ≠ .error () := by
  induction inputs with
  | nil =>
    intro st _ h
    simp [attachRun] at h
  | cons inp rest ih =>
    intro st hsafe
    cases hscan : scanProcs st inp.procs with
    | error e =>
      cases e
      exact absurd hscan (scanProcs_ok inp.procs st (hsafe inp (by simp)))
    | ok port =>
      rw [attachRun_cons st inp rest port hscan]
      by_cases hc : (truthyInt port && inp.handshakeOk) = true
      · rw [if_pos hc]
        intro h
        cases h
      · rw [if_neg hc]
        exact ih port fun q hq => hsafe q (by simp [hq])

theorem attach_first_success (pre : List PollInput) :
    ∀ (inp : PollInput) (rest : List PollInput) (p : Int),
    (∀ x ∈ pre, x.procs = []) →
    scanProcs none inp.procs = .ok (some p) → p ≠ 0 →
    inp.handshakeOk = true →
    attachRun none (pre ++ inp :: rest) = .ok (some p) := by
  induction pre with
  | nil =>
    intro inp rest p _ hscan hp hok
    rw [List.nil_append, attachRun_cons none inp rest (some p) hscan, hok]
    have htr : truthyInt (some p) = true := by
      simp [truthyInt]
      exact hp
    rw [htr]
    rfl
  | cons x pre ih =>
    intro inp rest p hpre hscan hp hok
    have hx : x.procs = [] := hpre x (by simp)
    have hscanx : scanProcs none x.procs = .ok none := by
      rw [hx]
      rfl
    rw [List.cons_append, attachRun_cons none x (pre ++ inp :: rest) none hscanx]
    have htr : truthyInt none = false := rfl
    rw [htr]
    simp only [Bool.false_and, Bool.false_eq_true, if_false]
    exact ih inp rest p (fun q hq => hpre q (by simp [hq])) hscan hp hok

theorem attachRun_all_fail (inputs : List PollInput) :
    ∀ st, (∀ inp ∈ inputs, ProcsSafe inp.procs) →
    (∀ inp ∈ inputs, inp.handshakeOk = false) →
    attachRun st inputs = .ok none := by
  induction inputs with
  | nil =>
    intro st _ _
    rfl
  | cons inp rest ih =>
    intro st hsafe hfail
    cases hscan : scanProcs st inp.procs with
    | error e =>
      cases e
      exact absurd hscan (scanProcs_ok inp.procs st (hsafe inp (by simp)))
    | ok port =>
      rw [attachRun_cons st inp rest port hscan, hfail inp (by simp)]
      simp only [Bool.and_false, Bool.false_eq_true, if_false]
      exact ih port (fun q hq => hsafe q (by simp [hq]))
        (fun q hq => hfail q (by simp [hq]))

/-- Counterexample for C9 as stated: a matching `sumo` process whose
`--remote-port` argument is not an integer literal makes the scan raise
(`int(cmd[i+1])` throws `ValueError`, which the inner `except` clause —
limited to the two psutil errors — does not catch), so the exception
escapes the discovery loop instead of being treated as "not ready yet". -/
theorem claim_C9_cex :
    attachRun none
      [⟨[⟨"sumo", ["sumo", "--remote-port", "abc"]⟩], true⟩]
      = .error () := rfl

/-- Claim C9 (amended): as long as every discovered port argument parses
as an integer, the discovery loop never raises — no matching process, a
matching process without a usable port argument, and a rejected handshake
are all treated as "not ready yet" and retried at the next poll (an
all-failing poll sequence ends with the loop still waiting, not in an
error), and the loop attaches exactly once, at the first poll whose scan
yields a truthy port and whose handshake succeeds, ignoring all later
polls.  A port argument that fails integer parsing, however, raises past
the component. -/
theorem claim_C9 :
    (∀ (st : Option Int) (inputs : List PollInput),
      (∀ inp ∈ inputs, ProcsSafe inp.procs) →
      attachRun st inputs ≠ .error ())
    ∧ (∀ (pre : List PollInput) (inp : PollInput) (rest : List PollInput)
        (p : Int),
        (∀ x ∈ pre, x.procs = []) →
        scanProcs none inp.procs = .ok (some p) → p ≠ 0 →
        inp.handshakeOk = true →
        attachRun none (pre ++ inp :: rest) = .ok (some p))
    ∧ (∀ (st : Option Int) (inputs : List PollInput),
        (∀ inp ∈ inputs, ProcsSafe inp.procs) →
        (∀ inp ∈ inputs, inp.handshakeOk = false) →
        attachRun st inputs = .ok none) := by
  refine ⟨?_, ?_, ?_⟩
  · intro st inputs hsafe
    exact attachRun_ok inputs st hsafe
  · intro pre inp rest p hpre hscan hp hok
    exact attach_first_success pre inp rest p hpre hscan hp hok
  · intro st inputs hsafe hfail
    exact attachRun_all_fail inputs st hsafe hfail

/-- Witness for C9 (amended) at concrete poll sequences: a port-less
process list never errors; three empty polls followed by a discovered
`sumo --remote-port 8813` with a successful handshake attach on 8813; an
all-failing poll leaves the loop waiting. -/
theorem claim_C9_witness :
    attachRun none [⟨[⟨"bash", ["bash"]⟩], true⟩] ≠ .error ()
    ∧ attachRun none
        ([⟨[], false⟩, ⟨[], false⟩, ⟨[], false⟩]
          ++ ⟨[⟨"sumo", ["sumo", "--remote-port", "8813"]⟩], true⟩ :: [])
        = .ok (some 8813)
    ∧ attachRun none [⟨[], false⟩] = .ok none := by
  refine ⟨?_, ?_, ?_⟩
  · apply claim_C9.1
    intro inp hinp
    simp only [List.mem_singleton] at hinp
    subst hinp
    intro proc hproc
    simp only [List.mem_singleton] at hproc
    subst hproc
    exact fun h => Except.noConfusion h
  · apply claim_C9.2.1
    · intro x hx
      simp at hx
      subst hx
      rfl
    · rfl
    · decide
    · rfl
  · apply claim_C9.2.2
    · intro inp hinp
      simp only [List.mem_singleton] at hinp
      subst hinp
      intro proc hproc
      exact absurd hproc (List.not_mem_nil proc)
    · intro inp hinp
      simp only [List.mem_singleton] at hinp
      subst hinp
      rfl
